import Mathlib

/-!
Shallow embedding of the `mcp_neo4j_data_modeling.data_model` module
(`Property`, `Node`, `Relationship`, `DataModel` and their Arrows-format
transcoding), together with the constraint-query generator referenced by
`server.py`.  Python strings are Lean `String`s; the handful of string
operations the source uses (`str.upper`, `str.lower`, `str.strip`,
`str.split("|")`, substring containment) are implemented over `List Char`
so that they compute by kernel reduction.  Pydantic validation failures
and raised `ValueError`s are modelled with `Except String`.
-/

deriving instance DecidableEq for Except

/-- `str.upper` (ASCII, as used by the source). -/
def strUpper (s : String) : String := String.mk (s.data.map Char.toUpper)

/-- `str.lower` (ASCII, as used by the source). -/
def strLower (s : String) : String := String.mk (s.data.map Char.toLower)

/-- Characters of `str.strip`: drop whitespace from both ends. -/
def trimChars (l : List Char) : List Char :=
  ((l.dropWhile Char.isWhitespace).reverse.dropWhile Char.isWhitespace).reverse

/-- `str.strip`. -/
def strStrip (s : String) : String := String.mk (trimChars s.data)

/-- `str.split(sep)` for a one-character separator, on character lists. -/
def splitOnChar (c : Char) : List Char → List (List Char)
  | [] => [[]]
  | x :: xs =>
    match splitOnChar c xs with
    | [] => [[x]]
    | h :: t => if x = c then [] :: h :: t else (x :: h) :: t

/-- `value.split("|")` as used by `Property.from_arrows`. -/
def strSplitPipe (s : String) : List String :=
  (splitOnChar (Char.ofNat 124) s.data).map String.mk

/-- Boolean prefix test on character lists. -/
def isPrefixOfChars : List Char → List Char → Bool
  | [], _ => true
  | _ :: _, [] => false
  | x :: xs, y :: ys => x = y && isPrefixOfChars xs ys

/-- Boolean substring test on character lists (`needle in hay` for Python strings). -/
def hasSubstr (needle : List Char) : List Char → Bool
  | [] => needle.isEmpty
  | x :: xs => isPrefixOfChars needle (x :: xs) || hasSubstr needle xs

/-- `"KEY" in v.upper()`: the marker test used by `Node.from_arrows` and
`Relationship.from_arrows` to classify a property as the key property. -/
def hasKeyMarker (v : String) : Bool := hasSubstr "KEY".data (strUpper v).data

/-- `"|" in value`. -/
def strContainsPipe (s : String) : Bool := s.data.contains (Char.ofNat 124)

/-- The source of a property (`PropertySource`). -/
structure PropertySource where
  column_name : Option String := none
  table_name : Option String := none
  location : Option String := none
deriving DecidableEq

/-- A Neo4j Property (`Property`). -/
structure Property where
  name : String
  type : String
  source : Option PropertySource := none
  description : Option String := none
deriving DecidableEq

/-- Pydantic construction of a `Property`: the `validate_type` field validator
upper-cases `type`; no validator constrains `name`. -/
def Property.create (name ty : String) (source : Option PropertySource)
    (description : Option String) : Except String Property :=
  Except.ok { name := name, type := strUpper ty, source := source, description := description }

/-- `Property.from_arrows` on the single entry `{k: v}` of an Arrows property dict. -/
def Property.fromArrowsKV (k v : String) : Property :=
  if strContainsPipe v then
    match (strSplitPipe v).map strStrip with
    | ty :: d :: _ =>
      { name := k, type := strUpper ty, source := none,
        description := if strLower d = "key" then none else some d }
    | _ =>
      -- unreachable: a value containing the separator splits into at least two segments
      { name := k, type := strUpper v, source := none, description := none }
  else
    { name := k, type := strUpper v, source := none, description := none }

/-- The encoded value of `Property.to_arrows`: `TYPE`, then `" | description"` when the
description is truthy, then `" | KEY"` when `is_key`. -/
def Property.toArrowsValue (p : Property) (is_key : Bool) : String :=
  let v := p.type
  let v := match p.description with
    | some d => if d = "" then v else v ++ " | " ++ d
    | none => v
  if is_key then v ++ " | KEY" else v

/-- `Property.to_arrows`: the single-entry dict `{name: value}`. -/
def Property.toArrowsKV (p : Property) (is_key : Bool) : String × String :=
  (p.name, p.toArrowsValue is_key)

/-- Node/model position metadata (`{"x": ..., "y": ...}`). -/
structure Pos where
  x : Int
  y : Int
deriving DecidableEq

/-- Opaque Arrows style blob, preserved verbatim; `StyleV.emptyStyle` is `{}`. -/
inductive StyleV
  | emptyStyle
  | custom (s : String)
deriving DecidableEq

/-- The metadata dict a `Node` carries (`position`/`caption`/`style` keys when present). -/
structure NodeMetadata where
  position : Option Pos := none
  caption : Option String := none
  style : Option StyleV := none
deriving DecidableEq

/-- The metadata dict a `Relationship` carries (`style` key when present). -/
structure RelMetadata where
  style : Option StyleV := none
deriving DecidableEq

/-- The metadata dict a `DataModel` carries (`style` key when present). -/
structure ModelMetadata where
  style : Option StyleV := none
deriving DecidableEq

/-- A Neo4j Node (`Node`). -/
structure Node where
  label : String
  key_property : Property
  properties : List Property
  metadata : NodeMetadata
deriving DecidableEq

/-- Accumulator pass behind `firstOccurrences`: keep the names not seen yet. -/
def foAux (seen : List String) : List String → List String
  | [] => []
  | x :: xs => if seen.contains x then foAux seen xs else x :: foAux (x :: seen) xs

/-- First-occurrence order of a list of names (the key order of a Python `Counter`). -/
def firstOccurrences (names : List String) : List String := foAux [] names

/-- The first name, in `Counter` iteration order, whose count exceeds 1. -/
def firstDup (names : List String) : Option String :=
  (firstOccurrences names).find? (fun n => 1 < names.count n)

/-- `Node.validate_properties`: entries named like the key property are dropped;
a remaining duplicated name raises, reporting name, count and node label. -/
def Node.validateProperties (label : String) (key_property : Property)
    (properties : List Property) : Except String (List Property) :=
  match firstDup (((properties.filter (fun p => p.name ≠ key_property.name)).map
      Property.name)) with
  | some n =>
    Except.error ("Property " ++ n ++ " appears "
      ++ Nat.repr (List.count n ((properties.filter (fun p => p.name ≠ key_property.name)).map
        Property.name)) ++ " times in node " ++ label)
  | none => Except.ok (properties.filter (fun p => p.name ≠ key_property.name))

/-- Pydantic construction of a `Node`: `label` has `min_length=1`, then
`validate_properties` runs on the `properties` field. -/
def Node.create (label : String) (key_property : Property) (properties : List Property)
    (metadata : NodeMetadata) : Except String Node :=
  if label = "" then Except.error "String should have at least 1 character" else
  match Node.validateProperties label key_property properties with
  | Except.error e => Except.error e
  | Except.ok props =>
    Except.ok { label := label, key_property := key_property, properties := props,
                metadata := metadata }

/-- `Node.add_property`: raises when the name collides with an existing entry of
`properties`; otherwise appends (no validator re-runs on the mutation). -/
def Node.addProperty (n : Node) (prop : Property) : Except String Node :=
  if (n.properties.map Property.name).contains prop.name then
    Except.error ("Property " ++ prop.name ++ " already exists in node " ++ n.label)
  else Except.ok { n with properties := n.properties ++ [prop] }

/-- `Node.remove_property`: removes the first exact match, no-op when absent. -/
def Node.removeProperty (n : Node) (prop : Property) : Node :=
  { n with properties := n.properties.erase prop }

/-- An Arrows node dict (`{id, labels, properties, position, style, caption}`).
The property dict is an insertion-ordered association list. -/
structure ArrowsNode where
  id : String
  labels : List String
  properties : List (String × String)
  position : Pos
  style : StyleV
  caption : String
deriving DecidableEq

/-- An Arrows relationship dict (`{fromId, toId, type, properties, style}`). -/
structure ArrowsRelationship where
  fromId : String
  toId : String
  type : String
  properties : List (String × String)
  style : StyleV
deriving DecidableEq

/-- An Arrows data-model dict (`{nodes, relationships, style}`). -/
structure ArrowsDataModel where
  nodes : List ArrowsNode
  relationships : List ArrowsRelationship
  style : StyleV
deriving DecidableEq

/-- Python dict update with a single-entry dict: replace in place or append. -/
def dictInsert (l : List (String × String)) (kv : String × String) :
    List (String × String) :=
  if l.any (fun e => e.1 = kv.1) then
    l.map (fun e => if e.1 = kv.1 then (e.1, kv.2) else e)
  else l ++ [kv]

/-- The entries of an Arrows property dict whose value carries the `KEY` marker. -/
def keyEntries (props : List (String × String)) : List (String × String) :=
  props.filter (fun kv => hasKeyMarker kv.2)

/-- The parsed non-key properties of an Arrows property dict (the entries whose
value does not carry the `KEY` marker). -/
def nonKeyProperties (props : List (String × String)) : List Property :=
  (props.filter (fun kv => ¬ hasKeyMarker kv.2)).map
    (fun kv => Property.fromArrowsKV kv.1 kv.2)

/-- `Node.from_arrows`: entries whose value carries the `KEY` marker are key
candidates (the first becomes the key property; pydantic rejects the node when
there is none because `key_property` is a required field); the rest become
properties; `position`, `caption` and `style` land in `metadata`. -/
def Node.fromArrows (an : ArrowsNode) : Except String Node :=
  match an.labels.head? with
  | none => Except.error "list index out of range"
  | some label =>
    match (keyEntries an.properties).head? with
    | none => Except.error "key_property: Field required"
    | some kv =>
      Node.create label (Property.fromArrowsKV kv.1 kv.2) (nonKeyProperties an.properties)
        { position := some an.position, caption := some an.caption, style := some an.style }

/-- `Node.to_arrows`: encode non-key properties then the key property into one
dict; metadata fields fall back to defaults when absent. -/
def Node.toArrows (n : Node) (default_position : Pos) : ArrowsNode :=
  let props := n.properties.foldl (fun acc p => dictInsert acc (p.toArrowsKV false)) []
  let props := dictInsert props (n.key_property.toArrowsKV true)
  { id := n.label
    labels := [n.label]
    properties := props
    style := n.metadata.style.getD StyleV.emptyStyle
    position := n.metadata.position.getD default_position
    caption := n.metadata.caption.getD "" }

/-- `_generate_relationship_pattern`. -/
def generateRelationshipPattern (start_node_label relationship_type end_node_label : String) :
    String :=
  "(:" ++ start_node_label ++ ")-[:" ++ relationship_type ++ "]->(:" ++ end_node_label ++ ")"

/-- A Neo4j Relationship (`Relationship`). -/
structure Relationship where
  type : String
  start_node_label : String
  end_node_label : String
  key_property : Option Property := none
  properties : List Property := []
  metadata : RelMetadata := {}
deriving DecidableEq

/-- `Relationship.pattern`. -/
def Relationship.pattern (r : Relationship) : String :=
  generateRelationshipPattern r.start_node_label r.type r.end_node_label

/-- The properties kept by `Relationship.validate_properties`: entries named like
the key property are dropped only when a key property exists. -/
def keptProperties (key_property : Option Property) (properties : List Property) :
    List Property :=
  match key_property with
  | some k => properties.filter (fun p => p.name ≠ k.name)
  | none => properties

/-- `Relationship.validate_properties`: like the node validator, but entries named
like the key property are only dropped when a key property exists. -/
def Relationship.validateProperties (relationship_type start_node_label end_node_label : String)
    (key_property : Option Property) (properties : List Property) :
    Except String (List Property) :=
  match firstDup ((keptProperties key_property properties).map Property.name) with
  | some n =>
    Except.error ("Property " ++ n ++ " appears "
      ++ Nat.repr (List.count n ((keptProperties key_property properties).map Property.name))
      ++ " times in relationship "
      ++ generateRelationshipPattern start_node_label relationship_type end_node_label)
  | none => Except.ok (keptProperties key_property properties)

/-- Pydantic construction of a `Relationship`: `type` has `min_length=1`, then
`validate_properties` runs. -/
def Relationship.create (relationship_type start_node_label end_node_label : String)
    (key_property : Option Property) (properties : List Property) (metadata : RelMetadata) :
    Except String Relationship :=
  if relationship_type = "" then Except.error "String should have at least 1 character" else
  match Relationship.validateProperties relationship_type start_node_label end_node_label
      key_property properties with
  | Except.error e => Except.error e
  | Except.ok props =>
    Except.ok { type := relationship_type, start_node_label := start_node_label,
                end_node_label := end_node_label, key_property := key_property,
                properties := props, metadata := metadata }

/-- `Relationship.add_property`. -/
def Relationship.addProperty (r : Relationship) (prop : Property) : Except String Relationship :=
  if (r.properties.map Property.name).contains prop.name then
    Except.error ("Property " ++ prop.name ++ " already exists in relationship " ++ r.pattern)
  else Except.ok { r with properties := r.properties ++ [prop] }

/-- `Relationship.remove_property`. -/
def Relationship.removeProperty (r : Relationship) (prop : Property) : Relationship :=
  { r with properties := r.properties.erase prop }

/-- `Relationship.from_arrows`: key-marker classification as for nodes, but the
key property is optional; endpoint ids resolve through the id→label map. -/
def Relationship.fromArrows (ar : ArrowsRelationship)
    (node_id_to_label_map : List (String × String)) : Except String Relationship :=
  match List.lookup ar.fromId node_id_to_label_map with
  | none => Except.error ("KeyError: " ++ ar.fromId)
  | some start_label =>
    match List.lookup ar.toId node_id_to_label_map with
    | none => Except.error ("KeyError: " ++ ar.toId)
    | some end_label =>
      Relationship.create ar.type start_label end_label
        ((keyEntries ar.properties).head?.map (fun kv => Property.fromArrowsKV kv.1 kv.2))
        (nonKeyProperties ar.properties) { style := some ar.style }

/-- `Relationship.to_arrows`. -/
def Relationship.toArrows (r : Relationship) : ArrowsRelationship :=
  let props := r.properties.foldl (fun acc p => dictInsert acc (p.toArrowsKV false)) []
  let props := match r.key_property with
    | some k => dictInsert props (k.toArrowsKV true)
    | none => props
  { fromId := r.start_node_label, toId := r.end_node_label, type := r.type,
    properties := props, style := r.metadata.style.getD StyleV.emptyStyle }

/-- A Neo4j Graph Data Model (`DataModel`). -/
structure DataModel where
  nodes : List Node
  relationships : List Relationship
  metadata : ModelMetadata := {}
deriving DecidableEq

/-- `DataModel.validate_nodes`: duplicate labels raise, reporting label and count. -/
def DataModel.validateNodes (nodes : List Node) : Except String (List Node) :=
  match firstDup (nodes.map Node.label) with
  | some l =>
    Except.error ("Node with label " ++ l ++ " appears "
      ++ Nat.repr (List.count l (nodes.map Node.label)) ++ " times in data model")
  | none => Except.ok nodes

/-- The endpoint-existence loop of `DataModel.validate_relationships`: for each
relationship in order, the start label is checked before the end label. -/
def checkEndpoints (labels : List String) : List Relationship → Except String Unit
  | [] => Except.ok ()
  | r :: rest =>
    if ¬ labels.contains r.start_node_label then
      Except.error ("Relationship " ++ r.pattern
        ++ " has a start node that does not exist in data model")
    else if ¬ labels.contains r.end_node_label then
      Except.error ("Relationship " ++ r.pattern
        ++ " has an end node that does not exist in data model")
    else checkEndpoints labels rest

/-- `DataModel.validate_relationships`: duplicate patterns raise first, then every
relationship's endpoints must be labels of nodes of the model. -/
def DataModel.validateRelationships (nodes : List Node) (relationships : List Relationship) :
    Except String (List Relationship) :=
  match firstDup (relationships.map Relationship.pattern) with
  | some pat =>
    Except.error ("Relationship with pattern " ++ pat ++ " appears "
      ++ Nat.repr (List.count pat (relationships.map Relationship.pattern))
      ++ " times in data model")
  | none =>
    match checkEndpoints (nodes.map Node.label) relationships with
    | Except.error e => Except.error e
    | Except.ok _ => Except.ok relationships

/-- Pydantic construction of a `DataModel`: `validate_nodes` then
`validate_relationships` (field order). -/
def DataModel.create (nodes : List Node) (relationships : List Relationship)
    (metadata : ModelMetadata) : Except String DataModel :=
  match DataModel.validateNodes nodes with
  | Except.error e => Except.error e
  | Except.ok ns =>
    match DataModel.validateRelationships ns relationships with
    | Except.error e => Except.error e
    | Except.ok rels =>
      Except.ok { nodes := ns, relationships := rels, metadata := metadata }

/-- `DataModel.add_node`: raises on a duplicate label, else appends; no validator
re-runs on the mutation. -/
def DataModel.addNode (m : DataModel) (node : Node) : Except String DataModel :=
  if (m.nodes.map Node.label).contains node.label then
    Except.error ("Node with label " ++ node.label ++ " already exists in data model")
  else Except.ok { m with nodes := m.nodes ++ [node] }

/-- `DataModel.add_relationship`: raises on a duplicate pattern, else appends; no
validator re-runs on the mutation. -/
def DataModel.addRelationship (m : DataModel) (relationship : Relationship) :
    Except String DataModel :=
  if (m.relationships.map Relationship.pattern).contains relationship.pattern then
    Except.error ("Relationship " ++ relationship.pattern ++ " already exists in data model")
  else Except.ok { m with relationships := m.relationships ++ [relationship] }

/-- `DataModel.remove_node`: removes the nodes carrying the label. -/
def DataModel.removeNode (m : DataModel) (node_label : String) : DataModel :=
  { m with nodes := m.nodes.filter (fun n => n.label ≠ node_label) }

/-- `DataModel.remove_relationship`: removes the relationships whose pattern matches
the one generated from the arguments. -/
def DataModel.removeRelationship (m : DataModel) (relationship_type : String)
    (relationship_start_node_label : String) (relationship_end_node_label : String) :
    DataModel :=
  let pat := generateRelationshipPattern relationship_start_node_label relationship_type
    relationship_end_node_label
  { m with relationships := m.relationships.filter (fun r => r.pattern ≠ pat) }

/-- `map` over `Except`, failing on the first error (the list comprehensions of
`DataModel.from_arrows`). -/
def mapExcept (f : α → Except String β) : List α → Except String (List β)
  | [] => Except.ok []
  | x :: xs =>
    match f x with
    | Except.error e => Except.error e
    | Except.ok y =>
      match mapExcept f xs with
      | Except.error e => Except.error e
      | Except.ok ys => Except.ok (y :: ys)

/-- `DataModel.from_arrows` (the id→label dict is built from the arrows nodes by
successive dict insertion). -/
def DataModel.fromArrows (am : ArrowsDataModel) : Except String DataModel :=
  match mapExcept Node.fromArrows am.nodes with
  | Except.error e => Except.error e
  | Except.ok nodes =>
    match mapExcept (fun r => Relationship.fromArrows r
        (am.nodes.foldl (fun acc n => dictInsert acc (n.id, n.labels.headD "")) []))
        am.relationships with
    | Except.error e => Except.error e
    | Except.ok rels => DataModel.create nodes rels { style := some am.style }

/-- The node loop of `DataModel.to_arrows_dict`: `y_current` drops by 200 when
`(idx + 1) % 5 == 0`, before the node at `idx` is exported. -/
def toArrowsNodesLoop : List Node → Nat → Int → List ArrowsNode
  | [], _, _ => []
  | n :: rest, idx, y_current =>
    let y := if (idx + 1) % 5 = 0 then y_current - 200 else y_current
    n.toArrows { x := 200 * ((idx % 5 : Nat) : Int), y := y } ::
      toArrowsNodesLoop rest (idx + 1) y

/-- `DataModel.to_arrows_dict`. -/
def DataModel.toArrowsDict (m : DataModel) : ArrowsDataModel :=
  { nodes := toArrowsNodesLoop m.nodes 0 0
    relationships := m.relationships.map Relationship.toArrows
    style := m.metadata.style.getD StyleV.emptyStyle }

/-- A node as the constraint generator sees it: a label and a possibly missing
key property. -/
structure RawNode where
  label : String
  key_property : Option Property
deriving DecidableEq

/-- Constraint statement for a node key property. -/
def nodeConstraintStatement (label : String) (key : Property) : String :=
  "CREATE CONSTRAINT node_key_" ++ label ++ " IF NOT EXISTS FOR (n:" ++ label
    ++ ") REQUIRE n." ++ key.name ++ " IS NODE KEY"

/-- Constraint statement for a relationship key property. -/
def relationshipConstraintStatement (r : Relationship) (key : Property) : String :=
  "CREATE CONSTRAINT relationship_key_" ++ r.type ++ " IF NOT EXISTS FOR ()-[r:"
    ++ r.type ++ "]-() REQUIRE r." ++ key.name ++ " IS RELATIONSHIP KEY"

/-- Modelled from the spec: `DataModel.get_cypher_constraints_query` is called by
`get_constraints_cypher_queries` in `server.py` but its implementation is absent
from the source tree.  Per the spec it emits one constraint-creation Cypher
statement per Node and one per Relationship that declares a key property, each
establishing uniqueness and existence of that key property, and fails with
`MissingKeyProperty` when a node lacks a key property. -/
def getCypherConstraintsQuery (nodes : List RawNode) (relationships : List Relationship) :
    Except String (List String) :=
  match mapExcept (fun n =>
    match n.key_property with
    | none => Except.error ("MissingKeyProperty: node " ++ n.label ++ " has no key property")
    | some k => Except.ok (nodeConstraintStatement n.label k)) nodes with
  | Except.error e => Except.error e
  | Except.ok nodeStmts =>
    Except.ok (nodeStmts ++ relationships.filterMap
      (fun r => r.key_property.map (fun k => relationshipConstraintStatement r k)))

/-! ## Supporting lemmas -/

theorem isPrefixOfChars_iff (l₁ l₂ : List Char) : isPrefixOfChars l₁ l₂ = true ↔ l₁ <+: l₂ := by
  induction l₁ generalizing l₂ with
  | nil => simp [isPrefixOfChars]
  | cons x xs ih =>
    cases l₂ with
    | nil => simp [isPrefixOfChars]
    | cons y ys => simp [isPrefixOfChars, List.cons_prefix_cons, ih]

theorem hasSubstr_iff (n h : List Char) : hasSubstr n h = true ↔ n <:+: h := by
  induction h with
  | nil => cases n <;> simp [hasSubstr, List.isEmpty]
  | cons x xs ih => simp [hasSubstr, isPrefixOfChars_iff, ih, List.infix_cons_iff]

theorem mem_foAux {x : String} {l : List String} (seen : List String)
    (hx : x ∈ l) (hs : x ∉ seen) : x ∈ foAux seen l := by
  induction l generalizing seen with
  | nil => cases hx
  | cons y ys ih =>
    by_cases hsy : seen.contains y
    · have hxy : x ≠ y := by
        intro he
        have hy : y ∈ seen := by simpa using hsy
        exact hs (he ▸ hy)
      simp only [foAux, hsy, if_pos]
      exact ih seen (by simpa [hxy] using hx) hs
    · simp only [foAux, hsy, if_neg]
      rcases List.mem_cons.1 hx with he | hm
      · exact List.mem_cons.2 (Or.inl he)
      · by_cases hxy : x = y
        · exact List.mem_cons.2 (Or.inl hxy)
        · refine List.mem_cons.2 (Or.inr (ih (y :: seen) hm ?_))
          simp [hxy, hs]

theorem firstDup_eq_none_iff {names : List String} :
    firstDup names = none ↔ names.Nodup := by
  rw [List.nodup_iff_count_le_one]
  constructor
  · intro h a
    by_contra hc
    push_neg at hc
    by_cases ha : a ∈ names
    · have hmem : a ∈ firstOccurrences names := mem_foAux [] ha (by simp)
      have := List.find?_eq_none.1 h a hmem
      simp only [decide_eq_true_eq] at this
      omega
    · simp [List.count_eq_zero_of_not_mem ha] at hc
  · intro h
    apply List.find?_eq_none.2
    intro a _
    simpa using Nat.not_lt.2 (h a)

theorem firstDup_count {names : List String} {n : String}
    (h : firstDup names = some n) : 1 < names.count n := by
  have := List.find?_some h
  simpa using this

/-! ## C6 -/

/-- C6 counterexample: constructing a `Property` with an empty name succeeds —
pydantic places no constraint on `name`, so construction does not fail with
`InvalidValue`. -/
theorem property_emptyName_cex :
    Property.create "" "string" none none =
      Except.ok { name := "", type := "STRING", source := none, description := none } := by
  decide

/-- C6 (amended): construction normalizes the `type` string to upper-case, and
construction with an empty name succeeds (no validation is applied to `name`). -/
theorem property_create_amended :
    (∀ (name ty : String) (src : Option PropertySource) (d : Option String),
      Property.create name ty src d =
        Except.ok { name := name, type := strUpper ty, source := src, description := d }) ∧
    strUpper "string" = "STRING" ∧
    Property.create "" "STRING" none none ≠ Except.error "InvalidValue" := by
  refine ⟨fun name ty src d => rfl, by decide, by decide⟩

/-! ## C7 -/

/-- C7: `pattern` is the pure function `"(:start)-[:type]->(:end)"` of the
relationship's fields; the `KNOWS` Person→Person instance is exactly
`"(:Person)-[:KNOWS]->(:Person)"`; and this string is the identity used for
duplicate detection in `add_relationship` and for removal lookups in
`remove_relationship`. -/
theorem relationship_pattern_spec :
    (∀ r : Relationship,
      r.pattern =
        "(:" ++ r.start_node_label ++ ")-[:" ++ r.type ++ "]->(:" ++ r.end_node_label ++ ")") ∧
    (Relationship.pattern
        { type := "KNOWS", start_node_label := "Person", end_node_label := "Person" } =
      "(:Person)-[:KNOWS]->(:Person)") ∧
    (∀ (m : DataModel) (r : Relationship),
      (∃ e, m.addRelationship r = Except.error e) ↔
        r.pattern ∈ m.relationships.map Relationship.pattern) ∧
    (∀ (m : DataModel) (t s e : String),
      (m.removeRelationship t s e).relationships =
        m.relationships.filter (fun r => r.pattern ≠ generateRelationshipPattern s t e)) := by
  refine ⟨fun r => rfl, by decide, fun m r => ?_, fun m t s e => rfl⟩
  by_cases hc : r.pattern ∈ m.relationships.map Relationship.pattern
  · have hb : (m.relationships.map Relationship.pattern).contains r.pattern = true := by
      simpa using hc
    simp [DataModel.addRelationship, hb, hc]
  · have hb : (m.relationships.map Relationship.pattern).contains r.pattern = false := by
      simpa using hc
    simp [DataModel.addRelationship, hb, hc]

/-- C7 witness: the duplicate-detection direction of `relationship_pattern_spec`
applied at a concrete model already containing the `(:Person)-[:KNOWS]->(:Person)`
pattern. -/
theorem relationship_pattern_spec_witness :
    ∃ e, DataModel.addRelationship
        { nodes := [], relationships :=
            [{ type := "KNOWS", start_node_label := "Person", end_node_label := "Person" }] }
        { type := "KNOWS", start_node_label := "Person", end_node_label := "Person" } =
      Except.error e :=
  (relationship_pattern_spec.2.2.1 _ _).mpr (by decide)

/-! ## C5 -/

/-- C5: pydantic construction of a `Node` silently drops property entries named
like the key property; it succeeds (with exactly the remaining entries) iff no
name recurs among them, and otherwise fails with a message reporting the
offending name, its occurrence count and the node's label. -/
theorem node_validateProperties_spec (label : String) (key : Property)
    (props : List Property) (md : NodeMetadata) (hl : label ≠ "") :
    (Node.create label key props md =
        Except.ok { label := label, key_property := key,
                    properties := props.filter (fun p => p.name ≠ key.name),
                    metadata := md } ↔
      ((props.filter (fun p => p.name ≠ key.name)).map Property.name).Nodup) ∧
    (∀ e, Node.create label key props md = Except.error e →
      ∃ n, 1 < ((props.filter (fun p => p.name ≠ key.name)).map Property.name).count n ∧
        e = "Property " ++ n ++ " appears "
          ++ Nat.repr (((props.filter (fun p => p.name ≠ key.name)).map Property.name).count n)
          ++ " times in node " ++ label) := by
  rcases h : firstDup ((props.filter (fun p => p.name ≠ key.name)).map Property.name) with _ | n
  · have hnd := firstDup_eq_none_iff.1 h
    have hv : Node.validateProperties label key props =
        Except.ok (props.filter (fun p => p.name ≠ key.name)) := by
      unfold Node.validateProperties
      rw [h]
    constructor
    · unfold Node.create
      rw [if_neg hl, hv]
      exact iff_of_true rfl hnd
    · intro e he
      unfold Node.create at he
      rw [if_neg hl, hv] at he
      simp at he
  · have hc := firstDup_count h
    have hv : Node.validateProperties label key props =
        Except.error ("Property " ++ n ++ " appears "
          ++ Nat.repr (List.count n ((props.filter (fun p => p.name ≠ key.name)).map
            Property.name)) ++ " times in node " ++ label) := by
      unfold Node.validateProperties
      rw [h]
    constructor
    · constructor
      · intro he
        unfold Node.create at he
        rw [if_neg hl, hv] at he
        simp at he
      · intro hnd
        exact absurd (List.nodup_iff_count_le_one.1 hnd n) (by omega)
    · intro e he
      unfold Node.create at he
      rw [if_neg hl, hv] at he
      refine ⟨n, hc, ?_⟩
      simp at he
      simpa using he.symm

/-- C5 witness: `node_validateProperties_spec` at a node whose properties list
repeats the key property's name once and a non-key name twice. -/
theorem node_validateProperties_spec_witness :
    Node.create "Person" { name := "id", type := "STRING" }
        [{ name := "id", type := "STRING" }, { name := "age", type := "INTEGER" }] {} =
      Except.ok { label := "Person", key_property := { name := "id", type := "STRING" },
                  properties := [{ name := "age", type := "INTEGER" }], metadata := {} } :=
  (node_validateProperties_spec "Person" { name := "id", type := "STRING" }
    [{ name := "id", type := "STRING" }, { name := "age", type := "INTEGER" }] {}
    (by decide)).1.mpr (by decide)

/-! ## C3 -/

/-- The key property used by the concrete examples. -/
def keyIdProp : Property := { name := "id", type := "STRING" }

/-- A concrete validated node with label `Person`, key `id` and no properties. -/
def personNode : Node :=
  { label := "Person", key_property := keyIdProp, properties := [], metadata := {} }

/-- C3 counterexample: `add_property` with a property named like the key property
is not absorbed — it is appended, so the key property's name does end up inside
`properties`. -/
theorem addProperty_keyName_cex :
    Node.addProperty personNode keyIdProp =
      Except.ok { label := "Person", key_property := keyIdProp,
                  properties := [keyIdProp], metadata := {} } ∧
    (Node.addProperty personNode keyIdProp).map (fun n => n.properties.map Property.name) =
      Except.ok ["id"] := by
  decide

/-- C3 (amended): `add_property` fails with a duplicate-property error exactly when
the name collides with an existing entry of `properties`; otherwise it appends the
property — including one named like the key property, which therefore does appear
in `properties` (no absorption happens at mutation time; only construction-time
validation drops such entries). -/
theorem addProperty_amended (n : Node) (p : Property) :
    (p.name ∈ n.properties.map Property.name →
      n.addProperty p =
        Except.error ("Property " ++ p.name ++ " already exists in node " ++ n.label)) ∧
    (p.name ∉ n.properties.map Property.name →
      n.addProperty p = Except.ok { n with properties := n.properties ++ [p] }) := by
  constructor <;> intro h
  · have hb : (n.properties.map Property.name).contains p.name = true := by simpa using h
    unfold Node.addProperty
    rw [if_pos hb]
  · have hb : ¬ ((n.properties.map Property.name).contains p.name = true) := by simpa using h
    unfold Node.addProperty
    rw [if_neg hb]

/-- C3 witness: `addProperty_amended` appending a fresh property to `personNode`. -/
theorem addProperty_amended_witness :
    Node.addProperty personNode { name := "age", type := "INTEGER" } =
      Except.ok { label := "Person", key_property := keyIdProp,
                  properties := [{ name := "age", type := "INTEGER" }], metadata := {} } :=
  (addProperty_amended personNode { name := "age", type := "INTEGER" }).2 (by decide)

/-! ## C2 -/

/-- A relationship whose endpoints match no node of `personModel`. -/
def ghostRel : Relationship :=
  { type := "KNOWS", start_node_label := "Ghost", end_node_label := "Ghost" }

/-- A concrete validated model holding only `personNode`. -/
def personModel : DataModel := { nodes := [personNode], relationships := [] }

/-- C2 counterexample: `add_relationship` accepts a relationship whose endpoints
are labels of no node — it does not fail with `DanglingEndpoint`, because no
validator re-runs on the mutation. -/
theorem addRelationship_dangling_cex :
    personModel.addRelationship ghostRel =
      Except.ok { nodes := [personNode], relationships := [ghostRel] } ∧
    ghostRel.start_node_label ∉ personModel.nodes.map Node.label ∧
    ghostRel.end_node_label ∉ personModel.nodes.map Node.label := by
  decide

theorem checkEndpoints_ok {labels : List String} {rels : List Relationship}
    (h : checkEndpoints labels rels = Except.ok ()) :
    ∀ r ∈ rels, r.start_node_label ∈ labels ∧ r.end_node_label ∈ labels := by
  induction rels with
  | nil => intro r hr; cases hr
  | cons r0 rest ih =>
    intro r hr
    by_cases h1 : r0.start_node_label ∈ labels
    · by_cases h2 : r0.end_node_label ∈ labels
      · have h' : checkEndpoints labels rest = Except.ok () := by
          simpa [checkEndpoints, h1, h2] using h
        rcases List.mem_cons.1 hr with he | hm
        · subst he; exact ⟨h1, h2⟩
        · exact ih h' r hm
      · exfalso
        simp [checkEndpoints, h1, h2] at h
    · exfalso
      simp [checkEndpoints, h1] at h

theorem validateNodes_ok {nodes ns : List Node}
    (h : DataModel.validateNodes nodes = Except.ok ns) : ns = nodes := by
  unfold DataModel.validateNodes at h
  rcases hfd : firstDup (nodes.map Node.label) with _ | l
  · rw [hfd] at h
    simpa using h.symm
  · rw [hfd] at h
    simp at h

theorem validateRelationships_ok {nodes : List Node} {rels rels2 : List Relationship}
    (h : DataModel.validateRelationships nodes rels = Except.ok rels2) :
    rels2 = rels ∧ ∀ r ∈ rels,
      r.start_node_label ∈ nodes.map Node.label ∧ r.end_node_label ∈ nodes.map Node.label := by
  unfold DataModel.validateRelationships at h
  rcases hfd : firstDup (rels.map Relationship.pattern) with _ | pat
  · rw [hfd] at h
    rcases hce : checkEndpoints (nodes.map Node.label) rels with e | u
    · rw [hce] at h; simp at h
    · rw [hce] at h
      cases u
      simp at h
      exact ⟨h.symm, checkEndpoints_ok hce⟩
  · rw [hfd] at h; simp at h

/-- C2 (amended): `add_relationship(r)` fails exactly when `r.pattern` is already
present (DuplicatePattern) and otherwise appends `r` without re-validating, so a
relationship with a dangling endpoint is accepted by `add_relationship`; endpoint
existence is only enforced by full `DataModel` validation, which fails for any
model containing such a relationship. -/
theorem addRelationship_amended :
    (∀ (m : DataModel) (r : Relationship),
      r.pattern ∉ m.relationships.map Relationship.pattern →
        m.addRelationship r = Except.ok { m with relationships := m.relationships ++ [r] }) ∧
    (∀ (m : DataModel) (r : Relationship),
      r.pattern ∈ m.relationships.map Relationship.pattern →
        m.addRelationship r =
          Except.error ("Relationship " ++ r.pattern ++ " already exists in data model")) ∧
    (∀ (nodes : List Node) (rels : List Relationship) (md : ModelMetadata)
        (r : Relationship), r ∈ rels →
      (r.start_node_label ∉ nodes.map Node.label ∨ r.end_node_label ∉ nodes.map Node.label) →
      ∃ e, DataModel.create nodes rels md = Except.error e) := by
  refine ⟨fun m r h => ?_, fun m r h => ?_, fun nodes rels md r hr hbad => ?_⟩
  · unfold DataModel.addRelationship
    rw [if_neg (by simpa using h)]
  · unfold DataModel.addRelationship
    rw [if_pos (by simpa using h)]
  · rcases hres : DataModel.create nodes rels md with e | m2
    · exact ⟨e, rfl⟩
    · exfalso
      unfold DataModel.create at hres
      rcases hvn : DataModel.validateNodes nodes with e | ns
      · rw [hvn] at hres
        simp at hres
      · rw [hvn] at hres
        rcases hvr : DataModel.validateRelationships ns rels with e | rels2
        · simp [hvr] at hres
        · have hns := validateNodes_ok hvn
          subst hns
          have hend := (validateRelationships_ok hvr).2 r hr
          rcases hbad with hb | hb
          · exact hb hend.1
          · exact hb hend.2

/-- C2 witness: `addRelationship_amended` at `personModel`: the dangling `ghostRel`
is appended without error, and a model constructed with it fails validation. -/
theorem addRelationship_amended_witness :
    personModel.addRelationship ghostRel =
      Except.ok { nodes := [personNode], relationships := [ghostRel] } ∧
    ∃ e, DataModel.create [personNode] [ghostRel] {} = Except.error e :=
  ⟨addRelationship_amended.1 personModel ghostRel (by decide),
   addRelationship_amended.2.2 [personNode] [ghostRel] {} ghostRel (by decide)
     (Or.inl (by decide))⟩

/-! ## C4 -/

theorem toArrowsNodesLoop_getElem (ns : List Node) (idx j : Nat) (y : Int)
    (hy : y = -(200 * ((idx / 5 : Nat) : Int))) (hj : j < ns.length) :
    (toArrowsNodesLoop ns idx y)[j]? =
      some ((ns.get ⟨j, hj⟩).toArrows
        { x := 200 * (((idx + j) % 5 : Nat) : Int),
          y := -(200 * (((idx + j + 1) / 5 : Nat) : Int)) }) := by
  induction ns generalizing idx j y with
  | nil => simp at hj
  | cons n rest ih =>
    have hy2 : (if (idx + 1) % 5 = 0 then y - 200 else y) =
        -(200 * (((idx + 1) / 5 : Nat) : Int)) := by
      by_cases h5 : (idx + 1) % 5 = 0
      · have hq : (idx + 1) / 5 = idx / 5 + 1 := by omega
        rw [if_pos h5, hy, hq]
        push_cast
        ring
      · have hq : (idx + 1) / 5 = idx / 5 := by omega
        rw [if_neg h5, hy, hq]
    cases j with
    | zero =>
      simp only [toArrowsNodesLoop, hy2, List.getElem?_cons_zero, List.get]
      simp
    | succ j2 =>
      have hj2 : j2 < rest.length := by simpa using hj
      simp only [toArrowsNodesLoop, hy2, List.getElem?_cons_succ, List.get]
      have harith1 : idx + 1 + j2 = idx + (j2 + 1) := by omega
      rw [ih (idx + 1) j2 _ rfl hj2, harith1]

/-- A node with the given label, key `id`, no properties and no metadata. -/
def mkNode (l : String) : Node :=
  { label := l, key_property := keyIdProp, properties := [], metadata := {} }

/-- A five-node model without position metadata. -/
def fiveModel : DataModel :=
  { nodes := [mkNode "A", mkNode "B", mkNode "C", mkNode "D", mkNode "E"],
    relationships := [] }

/-- A seven-node model without position metadata. -/
def sevenModel : DataModel :=
  { nodes := [mkNode "A", mkNode "B", mkNode "C", mkNode "D", mkNode "E", mkNode "F",
              mkNode "G"],
    relationships := [] }

/-- C4 counterexample: in a five-node model without position metadata, the node at
0-based index 4 is exported at (x = 800, y = -200), whereas the claimed formula
`y = -200 * floor(i / 5)` requires y = 0 there: the export loop drops `y_current`
when `(i + 1) % 5 == 0`, before placing the node at index `i`. -/
theorem gridLayout_cex :
    ((fiveModel.toArrowsDict.nodes)[4]?.map ArrowsNode.position) =
      some { x := 800, y := -200 } ∧
    some ({ x := 800, y := -200 } : Pos) ≠
      some { x := 200 * ((4 % 5 : Nat) : Int), y := -200 * ((4 / 5 : Nat) : Int) } := by
  decide

/-- C4 (amended): for a DataModel whose nodes carry no position metadata, export
places the node at 0-based index i at x = 200 * (i mod 5) and
y = -200 * floor((i + 1) / 5) — five nodes per row with 200-unit spacing, with the
200-unit vertical drop taken before placing index i whenever (i + 1) is a multiple
of 5; the placement is a pure function of the node ordering (deterministic).  In
particular node index 5 of a 7-node model lands at (x = 0, y = -200). -/
theorem gridLayout_amended (m : DataModel)
    (hpos : ∀ n ∈ m.nodes, n.metadata.position = none)
    (i : Nat) (hi : i < m.nodes.length) :
    (m.toArrowsDict.nodes)[i]?.map ArrowsNode.position =
      some { x := 200 * ((i % 5 : Nat) : Int), y := -(200 * (((i + 1) / 5 : Nat) : Int)) } := by
  have h := toArrowsNodesLoop_getElem m.nodes 0 i 0 (by norm_num) hi
  have hnodes : m.toArrowsDict.nodes = toArrowsNodesLoop m.nodes 0 0 := rfl
  rw [hnodes, h]
  simp only [Option.map_some, Node.toArrows]
  rw [hpos (m.nodes.get ⟨i, hi⟩) (m.nodes.get_mem i hi)]
  simp

/-- C4 witness: `gridLayout_amended` at the seven-node model and index 5: the node
lands at (x = 0, y = -200), matching the documented scenario. -/
theorem gridLayout_amended_witness :
    ((sevenModel.toArrowsDict.nodes)[5]?.map ArrowsNode.position) =
      some { x := 0, y := -200 } := by
  have h := gridLayout_amended sevenModel (by decide) 5 (by decide)
  rw [h]
  decide

/-! ## C8 -/

theorem node_create_ok {label : String} {key : Property} {props : List Property}
    {md : NodeMetadata} {n : Node} (h : Node.create label key props md = Except.ok n) :
    n = { label := label, key_property := key,
          properties := props.filter (fun p => p.name ≠ key.name), metadata := md } := by
  unfold Node.create at h
  by_cases hl : label = ""
  · rw [if_pos hl] at h
    simp at h
  · rw [if_neg hl] at h
    unfold Node.validateProperties at h
    rcases hfd : firstDup ((props.filter (fun p => p.name ≠ key.name)).map Property.name)
      with _ | x
    · rw [hfd] at h
      simp at h
      simpa using h.symm
    · rw [hfd] at h
      simp at h

theorem relationship_create_ok {ty s e : String} {key : Option Property}
    {props : List Property} {md : RelMetadata} {r : Relationship}
    (h : Relationship.create ty s e key props md = Except.ok r) :
    r = { type := ty, start_node_label := s, end_node_label := e, key_property := key,
          properties := keptProperties key props, metadata := md } := by
  unfold Relationship.create at h
  by_cases ht : ty = ""
  · rw [if_pos ht] at h
    simp at h
  · rw [if_neg ht] at h
    unfold Relationship.validateProperties at h
    rcases hfd : firstDup ((keptProperties key props).map Property.name) with _ | x
    · rw [hfd] at h
      simp at h
      simpa using h.symm
    · rw [hfd] at h
      simp at h

/-- C8: on Arrows import, a property entry whose encoded value carries the `KEY`
marker (case-insensitively) becomes the entity's key property (the first such
entry); a node none of whose entries carries the marker fails to import, with the
required `key_property` field missing; a relationship with no marked entry imports
with `key_property` absent. -/
theorem arrows_key_property_spec :
    (∀ (an : ArrowsNode) (n : Node), Node.fromArrows an = Except.ok n →
      some n.key_property =
        (keyEntries an.properties).head?.map (fun kv => Property.fromArrowsKV kv.1 kv.2)) ∧
    (∀ an : ArrowsNode, an.labels ≠ [] → keyEntries an.properties = [] →
      Node.fromArrows an = Except.error "key_property: Field required") ∧
    (∀ (ar : ArrowsRelationship) (idm : List (String × String)) (r : Relationship),
      Relationship.fromArrows ar idm = Except.ok r →
      r.key_property =
        (keyEntries ar.properties).head?.map (fun kv => Property.fromArrowsKV kv.1 kv.2)) ∧
    (Relationship.fromArrows
        { fromId := "Person", toId := "Person", type := "KNOWS",
          properties := [("since", "DATE")], style := StyleV.emptyStyle }
        [("Person", "Person")] =
      Except.ok { type := "KNOWS", start_node_label := "Person",
                  end_node_label := "Person", key_property := none,
                  properties := [{ name := "since", type := "DATE" }],
                  metadata := { style := some StyleV.emptyStyle } }) := by
  refine ⟨fun an n h => ?_, fun an hlab hkeys => ?_, fun ar idm r h => ?_, by decide⟩
  · unfold Node.fromArrows at h
    rcases hhd : an.labels.head? with _ | label
    · rw [hhd] at h
      simp at h
    · rw [hhd] at h
      rcases hk : (keyEntries an.properties).head? with _ | kv
      · rw [hk] at h
        simp at h
      · rw [hk] at h
        rw [node_create_ok h]
        rfl
  · unfold Node.fromArrows
    rcases hhd : an.labels.head? with _ | label
    · exact absurd (List.head?_eq_none_iff.1 hhd) hlab
    · rw [hkeys]
      rfl
  · unfold Relationship.fromArrows at h
    rcases h1 : List.lookup ar.fromId idm with _ | s1
    · rw [h1] at h
      simp at h
    · rw [h1] at h
      rcases h2 : List.lookup ar.toId idm with _ | s2
      · rw [h2] at h
        simp at h
      · rw [h2] at h
        rw [relationship_create_ok h]

/-- C8 witness: `arrows_key_property_spec` at a node whose `age` entry carries no
marker and whose `name` entry does: the imported node's key property is the parsed
`name` entry. -/
theorem arrows_key_property_spec_witness :
    some ({ name := "name", type := "STRING" } : Property) =
      (keyEntries [("name", "STRING|KEY"), ("age", "INTEGER")]).head?.map
        (fun kv => Property.fromArrowsKV kv.1 kv.2) :=
  arrows_key_property_spec.1
    { id := "n0", labels := ["Person"],
      properties := [("name", "STRING|KEY"), ("age", "INTEGER")],
      position := { x := 0, y := 0 }, style := StyleV.emptyStyle, caption := "" }
    { label := "Person", key_property := { name := "name", type := "STRING" },
      properties := [{ name := "age", type := "INTEGER" }],
      metadata := { position := some { x := 0, y := 0 }, caption := some "",
                    style := some StyleV.emptyStyle } }
    (by decide)

/-! ## C10 -/

/-- C10: the key-property classification used on Arrows import is plain substring
search — an entry is a key candidate iff `"KEY"` occurs anywhere in the upper-cased
encoded value, not only as a pipe-delimited segment; in particular a property
whose type is `MONKEY` is treated as the node's key property. -/
theorem key_marker_substring_spec :
    (∀ v : String, hasKeyMarker v = true ↔ "KEY".data <:+: (strUpper v).data) ∧
    (Node.fromArrows
        { id := "n0", labels := ["Person"],
          properties := [("id", "STRING"), ("pet", "MONKEY")],
          position := { x := 0, y := 0 }, style := StyleV.emptyStyle, caption := "" } =
      Except.ok { label := "Person",
                  key_property := { name := "pet", type := "MONKEY" },
                  properties := [{ name := "id", type := "STRING" }],
                  metadata := { position := some { x := 0, y := 0 }, caption := some "",
                                style := some StyleV.emptyStyle } }) :=
  ⟨fun v => hasSubstr_iff _ _, by decide⟩

/-- C10 witness: the classification direction of `key_marker_substring_spec` at the
value `MONKEY`: the marker is found as a substring. -/
theorem key_marker_substring_spec_witness :
    "KEY".data <:+: (strUpper "MONKEY").data :=
  (key_marker_substring_spec.1 "MONKEY").mp (by decide)

/-! ## C9 -/

theorem mapExcept_ok_of {α β : Type} (f : α → Except String β) (g : α → β) (l : List α)
    (h : ∀ a ∈ l, f a = Except.ok (g a)) : mapExcept f l = Except.ok (l.map g) := by
  induction l with
  | nil => rfl
  | cons x xs ih =>
    unfold mapExcept
    rw [h x (List.mem_cons_self x xs), ih (fun a ha => h a (List.mem_cons_of_mem x ha))]
    rfl

theorem keyStmts_length (rels : List Relationship) :
    (rels.filterMap (fun r => r.key_property.map
        (fun k => relationshipConstraintStatement r k))).length =
      (rels.filter (fun r => r.key_property.isSome)).length := by
  induction rels with
  | nil => rfl
  | cons r rest ih =>
    rcases hk : r.key_property with _ | k <;>
      simp [List.filterMap_cons, List.filter_cons, hk, ih]

theorem mapExcept_error_of_none (nodes : List RawNode) (n : RawNode) (hn : n ∈ nodes)
    (hk : n.key_property = none) :
    ∃ e, mapExcept (fun n =>
      match n.key_property with
      | none => Except.error ("MissingKeyProperty: node " ++ n.label
          ++ " has no key property")
      | some k => Except.ok (nodeConstraintStatement n.label k)) nodes =
        Except.error e := by
  induction nodes with
  | nil => cases hn
  | cons n0 rest ih =>
    rcases hk0 : n0.key_property with _ | k0
    · refine ⟨"MissingKeyProperty: node " ++ n0.label ++ " has no key property", ?_⟩
      unfold mapExcept
      rw [hk0]
    · rcases List.mem_cons.1 hn with he | hm
      · subst he
        rw [hk] at hk0
        simp at hk0
      · obtain ⟨e, he⟩ := ih hm
        refine ⟨e, ?_⟩
        unfold mapExcept
        rw [hk0, he]

/-- C9 (spec-modelled): the constraint generator emits exactly one constraint
statement per node and one per relationship that declares a key property, and a
node lacking a key property makes it fail with `MissingKeyProperty`. -/
theorem constraints_query_spec :
    (∀ (nodes : List RawNode) (rels : List Relationship),
      (∀ n ∈ nodes, n.key_property.isSome) →
      ∃ qs, getCypherConstraintsQuery nodes rels = Except.ok qs ∧
        qs.length = nodes.length + (rels.filter (fun r => r.key_property.isSome)).length) ∧
    (∀ (nodes : List RawNode) (rels : List Relationship) (n : RawNode),
      n ∈ nodes → n.key_property = none →
      ∃ e, getCypherConstraintsQuery nodes rels = Except.error e) := by
  constructor
  · intro nodes rels h
    have hmap : mapExcept (fun n =>
        match n.key_property with
        | none => Except.error ("MissingKeyProperty: node " ++ n.label
            ++ " has no key property")
        | some k => Except.ok (nodeConstraintStatement n.label k)) nodes =
          Except.ok (nodes.map (fun n =>
            match n.key_property with
            | none => "MissingKeyProperty"
            | some k => nodeConstraintStatement n.label k)) := by
      apply mapExcept_ok_of
      intro a ha
      rcases hk : a.key_property with _ | k
      · have hcontra := h a ha
        rw [hk] at hcontra
        simp at hcontra
      · rfl
    refine ⟨_, by unfold getCypherConstraintsQuery; rw [hmap], ?_⟩
    rw [List.length_append, List.length_map, keyStmts_length]
  · intro nodes rels n hn hk
    obtain ⟨e, he⟩ := mapExcept_error_of_none nodes n hn hk
    refine ⟨e, ?_⟩
    unfold getCypherConstraintsQuery
    rw [he]

/-- C9 witness: `constraints_query_spec` at a one-node model with a keyed node and
a keyless relationship (one statement emitted), and at a node lacking a key
property (failure). -/
theorem constraints_query_spec_witness :
    (∃ qs, getCypherConstraintsQuery [{ label := "Person", key_property := some keyIdProp }]
        [ghostRel] = Except.ok qs ∧ qs.length = 1) ∧
    (∃ e, getCypherConstraintsQuery [{ label := "Ghost", key_property := none }] [] =
        Except.error e) := by
  constructor
  · obtain ⟨qs, h1, h2⟩ := constraints_query_spec.1
      [{ label := "Person", key_property := some keyIdProp }] [ghostRel] (by decide)
    exact ⟨qs, h1, by simpa using h2⟩
  · exact constraints_query_spec.2 [{ label := "Ghost", key_property := none }] []
      { label := "Ghost", key_property := none } (by decide) rfl

/-! ## C1 -/

/-- A property whose Arrows encoding decodes back to it, and whose encoding
carries the `KEY` marker exactly when encoded as a key (true for the common
shapes: upper-case type and stripped description without a pipe, never empty nor
the word `key`, no `KEY` occurring in a non-key encoding, `source` absent). -/
def Property.roundtrips (p : Property) (is_key : Bool) : Prop :=
  Property.fromArrowsKV p.name (p.toArrowsValue is_key) = p ∧
  hasKeyMarker (p.toArrowsValue is_key) = is_key

instance (p : Property) (b : Bool) : Decidable (p.roundtrips b) := by
  unfold Property.roundtrips
  infer_instance

/-- A node whose export is unambiguous: valid label, key property distinct from
the (distinctly named) non-key properties, and all encodings faithful. -/
def Node.safeForExport (n : Node) : Prop :=
  n.label ≠ "" ∧
  (∀ p ∈ n.properties, Property.roundtrips p false) ∧
  Property.roundtrips n.key_property true ∧
  n.key_property.name ∉ n.properties.map Property.name ∧
  (n.properties.map Property.name).Nodup

/-- A relationship whose export is unambiguous. -/
def Relationship.safeForExport (r : Relationship) : Prop :=
  r.type ≠ "" ∧
  (∀ p ∈ r.properties, Property.roundtrips p false) ∧
  (∀ k, r.key_property = some k →
    Property.roundtrips k true ∧ k.name ∉ r.properties.map Property.name) ∧
  (r.properties.map Property.name).Nodup

/-- A valid model whose export is unambiguous: label/pattern uniqueness, endpoint
existence, and per-entity export safety. -/
def DataModel.roundtripSafe (m : DataModel) : Prop :=
  (m.nodes.map Node.label).Nodup ∧
  (∀ n ∈ m.nodes, n.safeForExport) ∧
  (m.relationships.map Relationship.pattern).Nodup ∧
  (∀ r ∈ m.relationships, r.safeForExport ∧
    r.start_node_label ∈ m.nodes.map Node.label ∧
    r.end_node_label ∈ m.nodes.map Node.label)

instance (n : Node) : Decidable n.safeForExport := by
  unfold Node.safeForExport
  infer_instance

instance (r : Relationship) : Decidable r.safeForExport := by
  unfold Relationship.safeForExport
  infer_instance

instance (m : DataModel) : Decidable m.roundtripSafe := by
  unfold DataModel.roundtripSafe
  infer_instance

/-- The identity-relevant fields of a node (everything except `metadata`). -/
def Node.core (n : Node) : String × Property × List Property :=
  (n.label, n.key_property, n.properties)

/-- The identity-relevant fields of a relationship (everything except `metadata`). -/
def Relationship.core (r : Relationship) :
    String × String × String × Option Property × List Property :=
  (r.type, r.start_node_label, r.end_node_label, r.key_property, r.properties)

/-- The node produced by re-importing an exported node: identical up to metadata
normalization (every metadata field filled, absent ones with their export
defaults). -/
def Node.recon (n : Node) (dp : Pos) : Node :=
  { label := n.label, key_property := n.key_property, properties := n.properties,
    metadata := { position := some (n.metadata.position.getD dp),
                  caption := some (n.metadata.caption.getD ""),
                  style := some (n.metadata.style.getD StyleV.emptyStyle) } }

/-- The relationship produced by re-importing an exported relationship. -/
def Relationship.recon (r : Relationship) : Relationship :=
  { type := r.type, start_node_label := r.start_node_label,
    end_node_label := r.end_node_label, key_property := r.key_property,
    properties := r.properties,
    metadata := { style := some (r.metadata.style.getD StyleV.emptyStyle) } }

/-- The node list produced by re-importing an exported model: each node of the
export loop, with its metadata normalized against that node's grid default
position (mirroring `toArrowsNodesLoop`). -/
def reconNodesLoop : List Node → Nat → Int → List Node
  | [], _, _ => []
  | n :: rest, idx, y_current =>
    let y := if (idx + 1) % 5 = 0 then y_current - 200 else y_current
    n.recon ⟨200 * ((idx % 5 : Nat) : Int), y⟩ :: reconNodesLoop rest (idx + 1) y

/-- The model produced by re-importing an exported model: the same nodes and
relationships up to metadata normalization — every node's `position` becomes
`some` of its stored position, or of the grid default when absent, `caption` and
`style` are filled with the export defaults, and likewise for relationship and
model styles. -/
def DataModel.recon (m : DataModel) : DataModel :=
  { nodes := reconNodesLoop m.nodes 0 0,
    relationships := m.relationships.map Relationship.recon,
    metadata := { style := some (m.metadata.style.getD StyleV.emptyStyle) } }

theorem dictInsert_fresh (l : List (String × String)) (kv : String × String)
    (h : ∀ e ∈ l, e.1 ≠ kv.1) : dictInsert l kv = l ++ [kv] := by
  unfold dictInsert
  have hc : ¬ (l.any (fun e => e.1 = kv.1) = true) := by
    simp only [List.any_eq_true, decide_eq_true_eq]
    rintro ⟨e, he, heq⟩
    exact h e he heq
  rw [if_neg hc]

theorem foldl_dictInsert_eq (kvs acc : List (String × String))
    (h : ((acc ++ kvs).map Prod.fst).Nodup) : kvs.foldl dictInsert acc = acc ++ kvs := by
  induction kvs generalizing acc with
  | nil => simp
  | cons kv rest ih =>
    have hsplit := List.nodup_append.1 (by simpa using h)
    have hfresh : ∀ e ∈ acc, e.1 ≠ kv.1 := by
      intro e he heq
      have h1 : e.1 ∈ acc.map Prod.fst := List.mem_map_of_mem Prod.fst he
      have h2 : e.1 ∈ (kv :: rest).map Prod.fst := by
        rw [heq]
        exact List.mem_cons_self kv.1 _
      exact hsplit.2.2 h1 h2
    rw [List.foldl_cons, dictInsert_fresh acc kv hfresh]
    have hassoc : acc ++ kv :: rest = acc ++ [kv] ++ rest := by simp
    rw [hassoc]
    apply ih (acc ++ [kv])
    rw [← hassoc]
    exact h

theorem map_parse_enc (props : List Property)
    (h : ∀ p ∈ props, Property.roundtrips p false) :
    (props.map (fun p => p.toArrowsKV false)).map
      (fun kv => Property.fromArrowsKV kv.1 kv.2) = props := by
  induction props with
  | nil => rfl
  | cons p rest ih =>
    simp only [List.map_cons]
    rw [ih (fun a ha => h a (List.mem_cons_of_mem p ha))]
    congr 1
    simpa [Property.toArrowsKV] using (h p (List.mem_cons_self p rest)).1

theorem keyEntries_enc_nonkey (props : List Property)
    (h : ∀ p ∈ props, Property.roundtrips p false) :
    keyEntries (props.map (fun p => p.toArrowsKV false)) = [] := by
  unfold keyEntries
  apply List.filter_eq_nil_iff.2
  intro kv hkv
  obtain ⟨p, hp, hpe⟩ := List.mem_map.1 hkv
  subst hpe
  simpa [Property.toArrowsKV] using (h p hp).2

theorem nonKey_enc_nonkey (props : List Property)
    (h : ∀ p ∈ props, Property.roundtrips p false) :
    nonKeyProperties (props.map (fun p => p.toArrowsKV false)) = props := by
  unfold nonKeyProperties
  have hfil : (props.map (fun p => p.toArrowsKV false)).filter
      (fun kv => ¬ hasKeyMarker kv.2) = props.map (fun p => p.toArrowsKV false) := by
    apply List.filter_eq_self.2
    intro kv hkv
    obtain ⟨p, hp, hpe⟩ := List.mem_map.1 hkv
    subst hpe
    simpa [Property.toArrowsKV] using (h p hp).2
  rw [hfil, map_parse_enc props h]

theorem keyEntries_enc_withKey (props : List Property) (key : Property)
    (h : ∀ p ∈ props, Property.roundtrips p false) (hk : Property.roundtrips key true) :
    keyEntries (props.map (fun p => p.toArrowsKV false) ++ [key.toArrowsKV true]) =
      [key.toArrowsKV true] := by
  unfold keyEntries
  rw [List.filter_append]
  have h1 := keyEntries_enc_nonkey props h
  unfold keyEntries at h1
  rw [h1]
  simp [List.filter_cons, Property.toArrowsKV, hk.2]

theorem nonKey_enc_withKey (props : List Property) (key : Property)
    (h : ∀ p ∈ props, Property.roundtrips p false) (hk : Property.roundtrips key true) :
    nonKeyProperties (props.map (fun p => p.toArrowsKV false) ++ [key.toArrowsKV true]) =
      props := by
  unfold nonKeyProperties
  rw [List.filter_append]
  have h2 : List.filter (fun kv => ¬ hasKeyMarker kv.2) [key.toArrowsKV true] = [] := by
    simp [List.filter_cons, Property.toArrowsKV, hk.2]
  rw [h2, List.append_nil]
  have := nonKey_enc_nonkey props h
  unfold nonKeyProperties at this
  exact this

theorem foldl_enc_eq_map (props : List Property)
    (hnodup : (props.map Property.name).Nodup) :
    props.foldl (fun acc p => dictInsert acc (p.toArrowsKV false)) [] =
      props.map (fun p => p.toArrowsKV false) := by
  calc props.foldl (fun acc p => dictInsert acc (p.toArrowsKV false)) []
      = (props.map (fun p => p.toArrowsKV false)).foldl dictInsert [] := by
        rw [List.foldl_map]
    _ = [] ++ props.map (fun p => p.toArrowsKV false) :=
        foldl_dictInsert_eq (props.map (fun p => p.toArrowsKV false)) []
          (by simpa [List.map_map, Function.comp, Property.toArrowsKV] using hnodup)
    _ = props.map (fun p => p.toArrowsKV false) := by simp

theorem node_toArrows_properties (n : Node) (dp : Pos)
    (hnodup : (n.properties.map Property.name).Nodup)
    (hkeyfresh : n.key_property.name ∉ n.properties.map Property.name) :
    (n.toArrows dp).properties =
      n.properties.map (fun p => p.toArrowsKV false) ++ [n.key_property.toArrowsKV true] := by
  have hproj : (n.toArrows dp).properties =
      dictInsert (n.properties.foldl (fun acc p => dictInsert acc (p.toArrowsKV false)) [])
        (n.key_property.toArrowsKV true) := rfl
  rw [hproj, foldl_enc_eq_map n.properties hnodup]
  apply dictInsert_fresh
  intro e he heq
  obtain ⟨p, hp, hpe⟩ := List.mem_map.1 he
  subst hpe
  simp only [Property.toArrowsKV] at heq
  exact hkeyfresh (heq ▸ List.mem_map_of_mem Property.name hp)

theorem rel_toArrows_properties_none (r : Relationship) (hk : r.key_property = none)
    (hnodup : (r.properties.map Property.name).Nodup) :
    r.toArrows.properties = r.properties.map (fun p => p.toArrowsKV false) := by
  have hproj : r.toArrows.properties =
      (match r.key_property with
        | some k => dictInsert
            (r.properties.foldl (fun acc p => dictInsert acc (p.toArrowsKV false)) [])
            (k.toArrowsKV true)
        | none => r.properties.foldl (fun acc p => dictInsert acc (p.toArrowsKV false)) []) :=
    rfl
  rw [hproj, hk, foldl_enc_eq_map r.properties hnodup]

theorem rel_toArrows_properties_some (r : Relationship) (k : Property)
    (hk : r.key_property = some k)
    (hnodup : (r.properties.map Property.name).Nodup)
    (hkeyfresh : k.name ∉ r.properties.map Property.name) :
    r.toArrows.properties =
      r.properties.map (fun p => p.toArrowsKV false) ++ [k.toArrowsKV true] := by
  have hproj : r.toArrows.properties =
      (match r.key_property with
        | some k => dictInsert
            (r.properties.foldl (fun acc p => dictInsert acc (p.toArrowsKV false)) [])
            (k.toArrowsKV true)
        | none => r.properties.foldl (fun acc p => dictInsert acc (p.toArrowsKV false)) []) :=
    rfl
  rw [hproj, hk, foldl_enc_eq_map r.properties hnodup]
  apply dictInsert_fresh
  intro e he heq
  obtain ⟨p, hp, hpe⟩ := List.mem_map.1 he
  subst hpe
  simp only [Property.toArrowsKV] at heq
  exact hkeyfresh (heq ▸ List.mem_map_of_mem Property.name hp)

theorem node_fromArrows_expand (an : ArrowsNode) (label : String) (kv : String × String)
    (hl : an.labels.head? = some label) (hk : (keyEntries an.properties).head? = some kv) :
    Node.fromArrows an = Node.create label (Property.fromArrowsKV kv.1 kv.2)
      (nonKeyProperties an.properties)
      { position := some an.position, caption := some an.caption, style := some an.style } := by
  unfold Node.fromArrows
  rw [hl, hk]

theorem rel_fromArrows_expand (ar : ArrowsRelationship) (idm : List (String × String))
    (s e : String) (h1 : List.lookup ar.fromId idm = some s)
    (h2 : List.lookup ar.toId idm = some e) :
    Relationship.fromArrows ar idm = Relationship.create ar.type s e
      ((keyEntries ar.properties).head?.map (fun kv => Property.fromArrowsKV kv.1 kv.2))
      (nonKeyProperties ar.properties) { style := some ar.style } := by
  unfold Relationship.fromArrows
  rw [h1, h2]

theorem node_create_eq_ok (label : String) (key : Property) (props : List Property)
    (md : NodeMetadata) (hl : label ≠ "")
    (hnd : ((props.filter (fun p => p.name ≠ key.name)).map Property.name).Nodup) :
    Node.create label key props md =
      Except.ok { label := label, key_property := key,
                  properties := props.filter (fun p => p.name ≠ key.name),
                  metadata := md } := by
  unfold Node.create
  rw [if_neg hl]
  unfold Node.validateProperties
  rw [firstDup_eq_none_iff.2 hnd]

theorem rel_create_eq_ok (ty s e : String) (key : Option Property)
    (props : List Property) (md : RelMetadata) (ht : ty ≠ "")
    (hnd : ((keptProperties key props).map Property.name).Nodup) :
    Relationship.create ty s e key props md =
      Except.ok { type := ty, start_node_label := s, end_node_label := e,
                  key_property := key, properties := keptProperties key props,
                  metadata := md } := by
  unfold Relationship.create
  rw [if_neg ht]
  unfold Relationship.validateProperties
  rw [firstDup_eq_none_iff.2 hnd]

theorem node_roundtrip (n : Node) (dp : Pos) (hs : n.safeForExport) :
    Node.fromArrows (n.toArrows dp) = Except.ok (n.recon dp) := by
  obtain ⟨hl, hprops, hkey, hfresh, hnodup⟩ := hs
  have hlabels : (n.toArrows dp).labels.head? = some n.label := rfl
  have hpe := node_toArrows_properties n dp hnodup hfresh
  have hkeys : (keyEntries (n.toArrows dp).properties).head? =
      some (n.key_property.toArrowsKV true) := by
    rw [hpe, keyEntries_enc_withKey n.properties n.key_property hprops hkey]
    rfl
  rw [node_fromArrows_expand (n.toArrows dp) n.label (n.key_property.toArrowsKV true)
    hlabels hkeys]
  have hparse : Property.fromArrowsKV (n.key_property.toArrowsKV true).1
      (n.key_property.toArrowsKV true).2 = n.key_property := by
    simpa [Property.toArrowsKV] using hkey.1
  rw [hparse]
  have hnk : nonKeyProperties (n.toArrows dp).properties = n.properties := by
    rw [hpe]
    exact nonKey_enc_withKey n.properties n.key_property hprops hkey
  rw [hnk]
  have hfe : n.properties.filter (fun p => p.name ≠ n.key_property.name) = n.properties := by
    apply List.filter_eq_self.2
    intro p hp
    exact decide_eq_true
      (fun he => hfresh (he ▸ List.mem_map_of_mem Property.name hp))
  rw [node_create_eq_ok n.label n.key_property n.properties _ hl
    (by rw [hfe]; exact hnodup)]
  rw [hfe]
  rfl

theorem rel_roundtrip (r : Relationship) (hs : r.safeForExport)
    (idm : List (String × String))
    (h1 : List.lookup r.toArrows.fromId idm = some r.start_node_label)
    (h2 : List.lookup r.toArrows.toId idm = some r.end_node_label) :
    Relationship.fromArrows r.toArrows idm = Except.ok r.recon := by
  obtain ⟨ht, hprops, hkey, hnodup⟩ := hs
  rw [rel_fromArrows_expand r.toArrows idm r.start_node_label r.end_node_label h1 h2]
  rcases hk : r.key_property with _ | k
  · have hpe := rel_toArrows_properties_none r hk hnodup
    have hkm : (keyEntries r.toArrows.properties).head?.map
        (fun kv => Property.fromArrowsKV kv.1 kv.2) = none := by
      rw [hpe, keyEntries_enc_nonkey r.properties hprops]
      rfl
    rw [hkm]
    have hnk : nonKeyProperties r.toArrows.properties = r.properties := by
      rw [hpe]
      exact nonKey_enc_nonkey r.properties hprops
    rw [hnk]
    rw [show r.toArrows.type = r.type from rfl]
    rw [rel_create_eq_ok r.type r.start_node_label r.end_node_label none r.properties _ ht
      (by exact hnodup)]
    simp [Relationship.recon, keptProperties, hk]
    rfl
  · obtain ⟨hkrt, hkfresh⟩ := hkey k hk
    have hpe := rel_toArrows_properties_some r k hk hnodup hkfresh
    have hkm : (keyEntries r.toArrows.properties).head?.map
        (fun kv => Property.fromArrowsKV kv.1 kv.2) = some k := by
      rw [hpe, keyEntries_enc_withKey r.properties k hprops hkrt]
      simpa [Property.toArrowsKV] using hkrt.1
    rw [hkm]
    have hnk : nonKeyProperties r.toArrows.properties = r.properties := by
      rw [hpe]
      exact nonKey_enc_withKey r.properties k hprops hkrt
    rw [hnk]
    have hkept : keptProperties (some k) r.properties = r.properties := by
      unfold keptProperties
      apply List.filter_eq_self.2
      intro p hp
      exact decide_eq_true
        (fun he => hkfresh (he ▸ List.mem_map_of_mem Property.name hp))
    rw [show r.toArrows.type = r.type from rfl]
    rw [rel_create_eq_ok r.type r.start_node_label r.end_node_label (some k) r.properties _ ht
      (by rw [hkept]; exact hnodup)]
    rw [hkept]
    simp [Relationship.recon, hk]
    rfl

theorem mapExcept_comp {α β γ : Type} (f : β → Except String γ) (g : α → β) (l : List α) :
    mapExcept f (l.map g) = mapExcept (fun a => f (g a)) l := by
  induction l with
  | nil => rfl
  | cons x xs ih =>
    simp only [List.map_cons]
    unfold mapExcept
    rw [ih]

theorem loop_fromArrows (ns : List Node) (h : ∀ n ∈ ns, n.safeForExport) :
    ∀ (idx : Nat) (y : Int),
    mapExcept Node.fromArrows (toArrowsNodesLoop ns idx y) =
      Except.ok (reconNodesLoop ns idx y) := by
  induction ns with
  | nil => exact fun idx y => rfl
  | cons n rest ih =>
    intro idx y
    have hr := ih (fun a ha => h a (List.mem_cons_of_mem n ha)) (idx + 1)
      (if (idx + 1) % 5 = 0 then y - 200 else y)
    have hloop : toArrowsNodesLoop (n :: rest) idx y =
        n.toArrows ⟨200 * ((idx % 5 : Nat) : Int),
          if (idx + 1) % 5 = 0 then y - 200 else y⟩ ::
        toArrowsNodesLoop rest (idx + 1) (if (idx + 1) % 5 = 0 then y - 200 else y) := rfl
    have hrecon : reconNodesLoop (n :: rest) idx y =
        n.recon ⟨200 * ((idx % 5 : Nat) : Int),
          if (idx + 1) % 5 = 0 then y - 200 else y⟩ ::
        reconNodesLoop rest (idx + 1) (if (idx + 1) % 5 = 0 then y - 200 else y) := rfl
    rw [hloop, hrecon]
    unfold mapExcept
    rw [node_roundtrip n _ (h n (List.mem_cons_self n rest)), hr]

theorem reconNodesLoop_core (ns : List Node) : ∀ (idx : Nat) (y : Int),
    (reconNodesLoop ns idx y).map Node.core = ns.map Node.core := by
  induction ns with
  | nil => exact fun idx y => rfl
  | cons n rest ih =>
    intro idx y
    have hrecon : reconNodesLoop (n :: rest) idx y =
        n.recon ⟨200 * ((idx % 5 : Nat) : Int),
          if (idx + 1) % 5 = 0 then y - 200 else y⟩ ::
        reconNodesLoop rest (idx + 1) (if (idx + 1) % 5 = 0 then y - 200 else y) := rfl
    rw [hrecon, List.map_cons, ih]
    rfl

theorem reconNodesLoop_label (ns : List Node) : ∀ (idx : Nat) (y : Int),
    (reconNodesLoop ns idx y).map Node.label = ns.map Node.label := by
  induction ns with
  | nil => exact fun idx y => rfl
  | cons n rest ih =>
    intro idx y
    have hrecon : reconNodesLoop (n :: rest) idx y =
        n.recon ⟨200 * ((idx % 5 : Nat) : Int),
          if (idx + 1) % 5 = 0 then y - 200 else y⟩ ::
        reconNodesLoop rest (idx + 1) (if (idx + 1) % 5 = 0 then y - 200 else y) := rfl
    rw [hrecon, List.map_cons, ih]
    rfl

theorem loop_idPairs (ns : List Node) : ∀ (idx : Nat) (y : Int),
    (toArrowsNodesLoop ns idx y).map (fun an => (an.id, an.labels.headD "")) =
      ns.map (fun n => (n.label, n.label)) := by
  induction ns with
  | nil => exact fun idx y => rfl
  | cons n rest ih =>
    intro idx y
    have hloop : toArrowsNodesLoop (n :: rest) idx y =
        n.toArrows ⟨200 * ((idx % 5 : Nat) : Int),
          if (idx + 1) % 5 = 0 then y - 200 else y⟩ ::
        toArrowsNodesLoop rest (idx + 1) (if (idx + 1) % 5 = 0 then y - 200 else y) := rfl
    rw [hloop, List.map_cons, ih]
    rfl

theorem idMap_eq (ns : List Node) (idx : Nat) (y : Int)
    (hnodup : (ns.map Node.label).Nodup) :
    (toArrowsNodesLoop ns idx y).foldl
        (fun acc an => dictInsert acc (an.id, an.labels.headD "")) [] =
      ns.map (fun n => (n.label, n.label)) := by
  calc (toArrowsNodesLoop ns idx y).foldl
        (fun acc an => dictInsert acc (an.id, an.labels.headD "")) []
      = ((toArrowsNodesLoop ns idx y).map
          (fun an => (an.id, an.labels.headD ""))).foldl dictInsert [] := by
        rw [List.foldl_map]
    _ = (ns.map (fun n => (n.label, n.label))).foldl dictInsert [] := by
        rw [loop_idPairs]
    _ = [] ++ ns.map (fun n => (n.label, n.label)) :=
        foldl_dictInsert_eq _ []
          (by simpa [List.map_map, Function.comp] using hnodup)
    _ = ns.map (fun n => (n.label, n.label)) := by simp

theorem lookup_diag (ns : List Node) (x : String) (hx : x ∈ ns.map Node.label) :
    List.lookup x (ns.map (fun n => (n.label, n.label))) = some x := by
  induction ns with
  | nil => simp at hx
  | cons n rest ih =>
    by_cases he : x = n.label
    · subst he
      simp [List.lookup]
    · have hx2 : x ∈ rest.map Node.label := by
        rcases (by simpa using hx : x = n.label ∨ ∃ a ∈ rest, a.label = x) with h | ⟨a, ha, hax⟩
        · exact absurd h he
        · exact hax ▸ List.mem_map_of_mem Node.label ha
      have hbe : (x == n.label) = false := beq_eq_false_iff_ne.mpr he
      simp only [List.map_cons, List.lookup, hbe]
      exact ih hx2

theorem checkEndpoints_of (labels : List String) (rels : List Relationship)
    (h : ∀ r ∈ rels, r.start_node_label ∈ labels ∧ r.end_node_label ∈ labels) :
    checkEndpoints labels rels = Except.ok () := by
  induction rels with
  | nil => rfl
  | cons r rest ih =>
    have h1 : labels.contains r.start_node_label = true := by
      simpa using (h r (List.mem_cons_self r rest)).1
    have h2 : labels.contains r.end_node_label = true := by
      simpa using (h r (List.mem_cons_self r rest)).2
    unfold checkEndpoints
    rw [if_neg (not_not_intro h1), if_neg (not_not_intro h2)]
    exact ih (fun a ha => h a (List.mem_cons_of_mem r ha))

theorem dataModel_create_eq_ok (nodes : List Node) (rels : List Relationship)
    (md : ModelMetadata) (h1 : firstDup (nodes.map Node.label) = none)
    (h2 : firstDup (rels.map Relationship.pattern) = none)
    (h3 : checkEndpoints (nodes.map Node.label) rels = Except.ok ()) :
    DataModel.create nodes rels md =
      Except.ok { nodes := nodes, relationships := rels, metadata := md } := by
  have hv1 : DataModel.validateNodes nodes = Except.ok nodes := by
    unfold DataModel.validateNodes
    rw [h1]
  have hv2 : DataModel.validateRelationships nodes rels = Except.ok rels := by
    unfold DataModel.validateRelationships
    rw [h2, h3]
  unfold DataModel.create
  rw [hv1]
  simp only [hv2]

/-- The model with one `Person` node whose non-key property has type `MONKEY`. -/
def monkeyNode : Node :=
  { label := "Person", key_property := keyIdProp,
    properties := [{ name := "pet", type := "MONKEY" }], metadata := {} }

/-- The one-node model around `monkeyNode`. -/
def monkeyModel : DataModel := { nodes := [monkeyNode], relationships := [] }

/-- C1 counterexample: `monkeyModel` is a valid DataModel, but re-importing its
export does not reproduce its node: the non-key property's encoded value `MONKEY`
contains `KEY`, so import classifies it as the key property — the imported node
has key `pet : MONKEY` and no properties instead of key `id : STRING` and one
property. -/
theorem roundtrip_monkey_cex :
    DataModel.create [monkeyNode] [] {} = Except.ok monkeyModel ∧
    (DataModel.fromArrows monkeyModel.toArrowsDict).map
        (fun m2 => m2.nodes.map Node.core) =
      Except.ok [("Person", { name := "pet", type := "MONKEY" }, ([] : List Property))] ∧
    monkeyModel.nodes.map Node.core =
      [("Person", keyIdProp, [{ name := "pet", type := "MONKEY" }])] := by
  decide

/-- C1 (amended): for every valid DataModel whose export is unambiguous — every
non-key property encoding is `KEY`-marker-free and decodes back to the property,
every key property encoding decodes back (as holds when types and descriptions
contain no pipe, no surrounding whitespace, no spurious `key` text, and sources
are absent) — importing the export succeeds and yields exactly `m.recon`: every
node's label, key property and properties and every relationship's type,
endpoints, key property and properties are reproduced exactly (the `core`
equalities), and metadata differs only by normalization, as `Node.recon` and
`Relationship.recon` spell out — each node's `position` is its stored position,
or the generated grid position when none existed, and `caption`/`style` are
filled with the export defaults, likewise the relationship and model styles. -/
theorem roundtrip_amended (m : DataModel) (h : m.roundtripSafe) :
    DataModel.fromArrows m.toArrowsDict = Except.ok m.recon ∧
    m.recon.nodes.map Node.core = m.nodes.map Node.core ∧
    m.recon.relationships.map Relationship.core =
      m.relationships.map Relationship.core := by
  obtain ⟨hnd, hnsafe, hpd, hrs⟩ := h
  have hns2 := loop_fromArrows m.nodes hnsafe 0 0
  have hlabels := reconNodesLoop_label m.nodes 0 0
  have hrels2 : mapExcept (fun ar => Relationship.fromArrows ar
      (m.nodes.map (fun n => (n.label, n.label))))
      (m.relationships.map Relationship.toArrows) =
        Except.ok (m.relationships.map Relationship.recon) := by
    rw [mapExcept_comp]
    apply mapExcept_ok_of
    intro r hr
    obtain ⟨hsafe, hstart, hend⟩ := hrs r hr
    exact rel_roundtrip r hsafe _ (lookup_diag m.nodes _ hstart) (lookup_diag m.nodes _ hend)
  have hpat : (m.relationships.map Relationship.recon).map Relationship.pattern =
      m.relationships.map Relationship.pattern := by
    rw [List.map_map]
    rfl
  have hfinal : DataModel.create (reconNodesLoop m.nodes 0 0)
      (m.relationships.map Relationship.recon) { style := some m.toArrowsDict.style } =
        Except.ok { nodes := reconNodesLoop m.nodes 0 0,
                    relationships := m.relationships.map Relationship.recon,
                    metadata := { style := some m.toArrowsDict.style } } := by
    apply dataModel_create_eq_ok
    · rw [hlabels]
      exact firstDup_eq_none_iff.2 hnd
    · rw [hpat]
      exact firstDup_eq_none_iff.2 hpd
    · rw [hlabels]
      apply checkEndpoints_of
      intro r2 hr2
      obtain ⟨r, hr, hre⟩ := List.mem_map.1 hr2
      obtain ⟨hsafe, hstart, hend⟩ := hrs r hr
      subst hre
      exact ⟨hstart, hend⟩
  refine ⟨?_, ?_, ?_⟩
  · unfold DataModel.fromArrows
    have hN : m.toArrowsDict.nodes = toArrowsNodesLoop m.nodes 0 0 := rfl
    have hR : m.toArrowsDict.relationships = m.relationships.map Relationship.toArrows := rfl
    rw [hN, hR, hns2, idMap_eq m.nodes 0 0 hnd, hrels2]
    exact hfinal
  · exact reconNodesLoop_core m.nodes 0 0
  · have hRR : m.recon.relationships = m.relationships.map Relationship.recon := rfl
    rw [hRR, List.map_map]
    rfl

/-- A two-node, one-relationship safe model for instantiating the round-trip. -/
def wtModel : DataModel :=
  { nodes := [mkNode "Person", mkNode "Company"],
    relationships :=
      [{ type := "WORKS_FOR", start_node_label := "Person", end_node_label := "Company" }] }

/-- C1 witness: `roundtrip_amended` at `wtModel`. -/
theorem roundtrip_amended_witness :
    DataModel.fromArrows wtModel.toArrowsDict = Except.ok wtModel.recon ∧
    wtModel.recon.nodes.map Node.core = wtModel.nodes.map Node.core ∧
    wtModel.recon.relationships.map Relationship.core =
      wtModel.relationships.map Relationship.core :=
  roundtrip_amended wtModel (by decide)
